import Mathlib

/-!
Verification of the encrypted backup and merge-import engine of the
ssh-key-manager repository (src/crypto/backup.rs, src/crypto/encrypt.rs,
src/error.rs), as a shallow embedding in Lean 4.

Modelling conventions:
* A byte is `Fin 256` (Rust `u8`); file contents are lists of bytes.
* The target key store (`BackupManager.ssh_dir`) is a flat association map
  from file name to content, plus a permission map (Unix mode bits) and a
  fault map `ioFail` listing the paths on which `fs::write` fails with the
  given error text.  Entry names are simple file names inside `ssh_dir`,
  so `ssh_dir.join(name)` is the identity on names.
* `fs::read` of an existing file and `fs::set_permissions` after a
  successful write are modelled as always succeeding; the fault model
  covers `fs::write` (per-entry write failures are the behaviour the
  spec talks about).
* serde_json is modelled at the JSON-value level: `serde_json::to_vec`
  is `encodeBackupData` producing a `Json` value, `serde_json::from_slice`
  is `decodeBackupData` consuming one.  The byte-level JSON text layer
  satisfies parse-after-print identity and carries no logic of its own.
  `DateTime<Local>` (de)serialization is kept as an opaque RFC-3339
  string field.
-/

/-- A Rust `u8`. -/
abbrev Byte := Fin 256

/-- File contents, Rust `Vec<u8>`. -/
abbrev Bytes := List Byte

/-- First value bound to a key in an association list (leftmost match wins). -/
def lookupA {α : Type} : List (String × α) → String → Option α
  | [], _ => none
  | (k0, v0) :: rest, k => if k0 = k then some v0 else lookupA rest k

/-- Replace the binding of a key, or append a fresh one. -/
def insertA {α : Type} : List (String × α) → String → α → List (String × α)
  | [], k, v => [(k, v)]
  | (k0, v0) :: rest, k, v =>
      if k0 = k then (k, v) :: rest else (k0, v0) :: insertA rest k v

/-- JSON values, the target of serde_json serialization. -/
inductive Json where
  | null : Json
  | bool : Bool → Json
  | num : Int → Json
  | str : String → Json
  | arr : List Json → Json
  | obj : List (String × Json) → Json

/-- The error enum of src/error.rs (`SkmError`). -/
inductive SkmError where
  | Io : String → SkmError
  | SshKey : String → SkmError
  | Encryption : String → SkmError
  | InvalidPassphrase : SkmError
  | KeyNotFound : String → SkmError
  | KeyAlreadyExists : String → SkmError
  | InvalidKeyFormat : String → SkmError
  | ImportExport : String → SkmError
  | Tui : String → SkmError
  | Config : String → SkmError
  | Unknown : String → SkmError
deriving DecidableEq

/-- The `Display` rendering of `SkmError` per the thiserror attributes in
src/error.rs (`e.to_string()`). -/
def skmErrorToString : SkmError → String
  | .Io s => "IO error: " ++ s
  | .SshKey s => "SSH key error: " ++ s
  | .Encryption s => "Encryption error: " ++ s
  | .InvalidPassphrase => "Invalid passphrase"
  | .KeyNotFound s => "Key not found: " ++ s
  | .KeyAlreadyExists s => "Key already exists: " ++ s
  | .InvalidKeyFormat s => "Invalid key format: " ++ s
  | .ImportExport s => "Import/Export error: " ++ s
  | .Tui s => "TUI error: " ++ s
  | .Config s => "Configuration error: " ++ s
  | .Unknown s => "Unknown error: " ++ s

/-- Modelled from the spec: the passphrase-based authenticated-encryption
primitive behind `EncryptionManager` (the external `age` crate, not part of
this repository).  Per the contract of spec section 4.1 the envelope is a
self-contained authenticated ciphertext: it binds the payload, the
passphrase its key was derived from, and the fresh per-call randomness
(`nonce`), and decryption recovers the payload exactly when the same
passphrase is supplied, failing closed otherwise.  The payload type is a
parameter; the backup engine uses JSON payloads. -/
structure Envelope (α : Type) where
  payload : α
  passphrase : String
  nonce : Nat
deriving DecidableEq

/-- `EncryptionManager::encrypt_with_passphrase` (src/crypto/encrypt.rs):
wraps the payload in a fresh envelope. -/
def encrypt_with_passphrase {α : Type} (data : α) (passphrase : String) (nonce : Nat) :
    Envelope α :=
  { payload := data, passphrase := passphrase, nonce := nonce }

/-- `EncryptionManager::decrypt_with_passphrase` (src/crypto/encrypt.rs):
a failed authenticated decryption is mapped to `SkmError::InvalidPassphrase`
by the source. -/
def decrypt_with_passphrase {α : Type} (encrypted : Envelope α) (passphrase : String) :
    Except SkmError α :=
  if encrypted.passphrase = passphrase then .ok encrypted.payload
  else .error SkmError.InvalidPassphrase

/-- `KeyType` of src/ssh/keys.rs (the variants used by export via
`to_string`). -/
inductive KeyType where
  | Rsa | Ed25519 | Ecdsa | Dsa | Unknown
deriving DecidableEq

/-- The `Display` rendering of `KeyType`. -/
def keyTypeToString : KeyType → String
  | .Rsa => "RSA"
  | .Ed25519 => "ED25519"
  | .Ecdsa => "ECDSA"
  | .Dsa => "DSA"
  | .Unknown => "Unknown"

/-- The fields of `SshKey` (src/ssh/keys.rs) consumed by
`BackupManager::export`; the remaining fields (status, fingerprint,
timestamps, size) never reach the backup engine. -/
structure SshKey where
  name : String
  path : String
  public_path : String
  key_type : KeyType
  comment : Option String
deriving DecidableEq

/-- `BackupMetadata` of src/crypto/backup.rs.  `created_at` is the
RFC-3339 rendering of the `DateTime<Local>` field, kept opaque. -/
structure BackupMetadata where
  version : Nat
  created_at : String
  hostname : String
  username : String
  key_count : Nat
  description : Option String
deriving DecidableEq

/-- `BackupEntry` of src/crypto/backup.rs. -/
structure BackupEntry where
  name : String
  key_type : String
  comment : Option String
  private_key : Option Bytes
  public_key : Option Bytes
deriving DecidableEq

/-- `BackupData` of src/crypto/backup.rs. -/
structure BackupData where
  metadata : BackupMetadata
  keys : List BackupEntry
deriving DecidableEq

/-- `BACKUP_VERSION` of src/crypto/backup.rs. -/
def BACKUP_VERSION : Nat := 1

/-- `ExportOptions` of src/crypto/backup.rs. -/
structure ExportOptions where
  description : Option String
  include_public_only : Bool
  selected_keys : Option (List String)
deriving DecidableEq

/-- `ExportOptions::default()`. -/
def ExportOptions.default : ExportOptions :=
  { description := none, include_public_only := false, selected_keys := none }

/-- `MergeStrategy` of src/crypto/backup.rs. -/
inductive MergeStrategy where
  | SkipExisting | Overwrite | Rename
deriving DecidableEq

/-- `ImportOptions` of src/crypto/backup.rs. -/
structure ImportOptions where
  merge_strategy : MergeStrategy
  dry_run : Bool
deriving DecidableEq

/-- `ImportOptions::default()`. -/
def ImportOptions.default : ImportOptions :=
  { merge_strategy := .SkipExisting, dry_run := false }

/-- `ImportReport` of src/crypto/backup.rs. -/
structure ImportReport where
  imported : List String
  skipped : List String
  overwritten : List String
  errors : List (String × String)
deriving DecidableEq

/-- `ImportResult` of src/crypto/backup.rs. -/
inductive ImportResult where
  | Imported : String → ImportResult
  | Skipped : String → ImportResult
  | Overwritten : String → ImportResult
deriving DecidableEq

/-! ## The backup codec (serde_json on `BackupData`)

Derived serde behaviour embedded here: every struct field is serialized in
declaration order; `Option` fields serialize as `null`/value and, on
deserialization, are absent-tolerant (missing means `None`); missing
non-`Option` fields are an error; unknown fields are ignored (serde
default, no `deny_unknown_fields` in the source); `u32` and `Vec<u8>`
element values are range-checked. -/

/-- serde serialization of `Option<String>`. -/
def encodeOptStr : Option String → Json
  | none => .null
  | some s => .str s

/-- serde serialization of `Option<Vec<u8>>`. -/
def encodeOptBytes : Option Bytes → Json
  | none => .null
  | some bs => .arr (bs.map (fun b => .num (Int.ofNat b.val)))

/-- serde serialization of `BackupMetadata`. -/
def encodeMetadata (m : BackupMetadata) : Json :=
  .obj [("version", .num (Int.ofNat m.version)),
        ("created_at", .str m.created_at),
        ("hostname", .str m.hostname),
        ("username", .str m.username),
        ("key_count", .num (Int.ofNat m.key_count)),
        ("description", encodeOptStr m.description)]

/-- serde serialization of `BackupEntry`. -/
def encodeEntry (e : BackupEntry) : Json :=
  .obj [("name", .str e.name),
        ("key_type", .str e.key_type),
        ("comment", encodeOptStr e.comment),
        ("private_key", encodeOptBytes e.private_key),
        ("public_key", encodeOptBytes e.public_key)]

/-- `serde_json::to_vec(&backup)` at the JSON-value level.  For these
derived types serialization is infallible, so the `map_err` arm of the
source (line 136 of backup.rs) is dead and the encoder is total. -/
def encodeBackupData (b : BackupData) : Json :=
  .obj [("metadata", encodeMetadata b.metadata),
        ("keys", .arr (b.keys.map encodeEntry))]

/-- Field access on a serde map; a missing required field is a schema
error. -/
def reqField (fields : List (String × Json)) (k : String) : Except String Json :=
  match lookupA fields k with
  | some j => .ok j
  | none => .error ("missing field `" ++ k ++ "`")

/-- serde deserialization of a string. -/
def asString : Json → Except String String
  | .str s => .ok s
  | _ => .error "invalid type: expected a string"

/-- serde deserialization of a `u32`: rejects negatives and values past
`u32::MAX`. -/
def asU32 : Json → Except String Nat
  | .num (Int.ofNat v) =>
      if v < 4294967296 then .ok v
      else .error "invalid value: integer out of range for u32"
  | .num (Int.negSucc _) => .error "invalid value: integer out of range for u32"
  | _ => .error "invalid type: expected an integer"

/-- serde deserialization of a `usize`.  The 64-bit upper bound is elided:
it is unreachable for the in-memory list lengths this field mirrors. -/
def asUsize : Json → Except String Nat
  | .num (Int.ofNat v) => .ok v
  | .num (Int.negSucc _) => .error "invalid value: negative integer for usize"
  | _ => .error "invalid type: expected an integer"

/-- serde deserialization of an `Option<String>` field (absent or `null`
is `None`). -/
def asOptStr : Option Json → Except String (Option String)
  | none => .ok none
  | some .null => .ok none
  | some (.str s) => .ok (some s)
  | some _ => .error "invalid type: expected a string"

/-- serde deserialization of a `u8`. -/
def asByte : Json → Except String Byte
  | .num (Int.ofNat v) =>
      if h : v < 256 then .ok ⟨v, h⟩
      else .error "invalid value: integer out of range for u8"
  | .num (Int.negSucc _) => .error "invalid value: integer out of range for u8"
  | _ => .error "invalid type: expected an integer"

/-- serde deserialization of the elements of a `Vec<u8>`. -/
def asBytesList : List Json → Except String Bytes
  | [] => .ok []
  | j :: rest => do
      let b ← asByte j
      let bs ← asBytesList rest
      return b :: bs

/-- serde deserialization of an `Option<Vec<u8>>` field. -/
def asOptBytes : Option Json → Except String (Option Bytes)
  | none => .ok none
  | some .null => .ok none
  | some (.arr xs) => do
      let bs ← asBytesList xs
      return some bs
  | some _ => .error "invalid type: expected a byte array"

/-- serde deserialization of `BackupMetadata`. -/
def decodeMetadata : Json → Except String BackupMetadata
  | .obj fields => do
      let v ← reqField fields "version" >>= asU32
      let c ← reqField fields "created_at" >>= asString
      let h ← reqField fields "hostname" >>= asString
      let u ← reqField fields "username" >>= asString
      let kc ← reqField fields "key_count" >>= asUsize
      let d ← asOptStr (lookupA fields "description")
      return { version := v, created_at := c, hostname := h, username := u,
               key_count := kc, description := d }
  | _ => .error "invalid type: expected a map"

/-- serde deserialization of `BackupEntry`. -/
def decodeEntry : Json → Except String BackupEntry
  | .obj fields => do
      let n ← reqField fields "name" >>= asString
      let kt ← reqField fields "key_type" >>= asString
      let c ← asOptStr (lookupA fields "comment")
      let pk ← asOptBytes (lookupA fields "private_key")
      let pubk ← asOptBytes (lookupA fields "public_key")
      return { name := n, key_type := kt, comment := c,
               private_key := pk, public_key := pubk }
  | _ => .error "invalid type: expected a map"

/-- serde deserialization of the entry list. -/
def decodeEntries : List Json → Except String (List BackupEntry)
  | [] => .ok []
  | j :: rest => do
      let e ← decodeEntry j
      let es ← decodeEntries rest
      return e :: es

/-- `serde_json::from_slice::<BackupData>` at the JSON-value level. -/
def decodeBackupData : Json → Except String BackupData
  | .obj fields => do
      let mj ← reqField fields "metadata"
      let m ← decodeMetadata mj
      let kj ← reqField fields "keys"
      match kj with
      | .arr xs => do
          let ks ← decodeEntries xs
          return { metadata := m, keys := ks }
      | _ => .error "invalid type: expected a sequence"
  | _ => .error "invalid type: expected a map"

/-! ## The target key store -/

/-- The state of the `ssh_dir` key store: file contents, Unix permission
bits, and the write-fault map (paths on which `fs::write` fails, with the
rendered io error text).  The fault map is part of the world, constant
through a run. -/
structure FsState where
  files : List (String × Bytes)
  perms : List (String × Nat)
  ioFail : List (String × String)
deriving DecidableEq

/-- A store with no files and no write faults. -/
def emptyFs : FsState := { files := [], perms := [], ioFail := [] }

/-- `Path::exists` inside the store. -/
def fsExists (fs : FsState) (p : String) : Bool :=
  (lookupA fs.files p).isSome

/-- `fs::write`: fails on faulted paths, otherwise creates or replaces the
file. -/
def fsWrite (fs : FsState) (p : String) (b : Bytes) : Except SkmError FsState :=
  match lookupA fs.ioFail p with
  | some msg => .error (SkmError.Io msg)
  | none => .ok { fs with files := insertA fs.files p b }

/-- `fs::set_permissions` (with `PermissionsExt::set_mode`). -/
def fsSetPerm (fs : FsState) (p : String) (mode : Nat) : FsState :=
  { fs with perms := insertA fs.perms p mode }

/-- `Path::with_extension("pub")` on a single-component file name: the
final extension (the part after the last dot, provided a nonempty stem
precedes it) is replaced by `pub`; with no extension, `.pub` is appended. -/
def lastDotIdx : List Char → Option Nat
  | [] => none
  | c :: rest =>
      match lastDotIdx rest with
      | some i => some (i + 1)
      | none => if c = '.' then some 0 else none

/-- The public-key path derived from a private-key path, as
`private_path.with_extension("pub")` computes it in backup.rs. -/
def withExtensionPub (name : String) : String :=
  match lastDotIdx name.data with
  | some i => if 0 < i then String.mk (name.data.take i) ++ ".pub" else name ++ ".pub"
  | none => name ++ ".pub"

/-! ## BackupManager -/

/-- One half of `BackupManager::write_key_files`: write one optional byte
buffer and set its permission mode.  On a write fault the pre-call state
is returned together with the error (nothing was written for this half). -/
def writeHalf (fs : FsState) (path : String) (data : Option Bytes) (mode : Nat) :
    FsState × Option SkmError :=
  match data with
  | none => (fs, none)
  | some d =>
      match fsWrite fs path d with
      | .error e => (fs, some e)
      | .ok fs1 => (fsSetPerm fs1 path mode, none)

/-- `BackupManager::write_key_files`: private half (mode 0o600) first,
then public half (mode 0o644); the first failure aborts with `Err`,
leaving the halves already written in place. -/
def write_key_files (fs : FsState) (name : String) (entry : BackupEntry) :
    FsState × Option SkmError :=
  let private_path := name
  let public_path := withExtensionPub private_path
  match writeHalf fs private_path entry.private_key 0o600 with
  | (fs1, some e) => (fs1, some e)
  | (fs1, none) => writeHalf fs1 public_path entry.public_key 0o644

/-- `BackupManager::import_entry`.  `now` is the
`chrono::Local::now().format("%Y%m%d_%H%M%S")` timestamp string of the
call. -/
def importEntry (fs : FsState) (now : String) (entry : BackupEntry)
    (strategy : MergeStrategy) : FsState × Except SkmError ImportResult :=
  let private_path := entry.name
  let public_path := withExtensionPub private_path
  let ex := fsExists fs private_path || fsExists fs public_path
  if ex then
    match strategy with
    | .SkipExisting => (fs, .ok (.Skipped entry.name))
    | .Rename =>
        let new_name := entry.name ++ "_" ++ now
        match write_key_files fs new_name entry with
        | (fs1, none) => (fs1, .ok (.Imported new_name))
        | (fs1, some e) => (fs1, .error e)
    | .Overwrite =>
        match write_key_files fs entry.name entry with
        | (fs1, none) => (fs1, .ok (.Overwritten entry.name))
        | (fs1, some e) => (fs1, .error e)
  else
    match write_key_files fs entry.name entry with
    | (fs1, none) => (fs1, .ok (.Imported entry.name))
    | (fs1, some e) => (fs1, .error e)

/-- Push one entry outcome onto the front of a report; the import loop
builds its report back-to-front with this, which matches the push-to-end
order of the source loop. -/
def pushOutcome (entry : BackupEntry) (r : Except SkmError ImportResult)
    (rep : ImportReport) : ImportReport :=
  match r with
  | .ok (.Imported n) => { rep with imported := n :: rep.imported }
  | .ok (.Skipped n) => { rep with skipped := n :: rep.skipped }
  | .ok (.Overwritten n) => { rep with overwritten := n :: rep.overwritten }
  | .error e => { rep with errors := (entry.name, skmErrorToString e) :: rep.errors }

/-- The empty report import starts from. -/
def emptyReport : ImportReport :=
  { imported := [], skipped := [], overwritten := [], errors := [] }

/-- The non-dry-run entry loop of `BackupManager::import` (lines 192-199
of backup.rs): every entry is attempted, outcomes are bucketed, errors are
collected instead of propagated. -/
def importLoop (now : String) (strategy : MergeStrategy) :
    FsState → List BackupEntry → FsState × ImportReport
  | fs, [] => (fs, emptyReport)
  | fs, entry :: rest =>
      let step := importEntry fs now entry strategy
      let tail := importLoop now strategy step.1 rest
      (tail.1, pushOutcome entry step.2 tail.2)

/-- The dry-run loop of `BackupManager::import` (lines 172-189 of
backup.rs).  Note that it consults only `target_path.exists()` — the
private path — and always against the starting state. -/
def dryRunLoop (fs : FsState) (strategy : MergeStrategy) :
    List BackupEntry → ImportReport
  | [] => emptyReport
  | entry :: rest =>
      let rep := dryRunLoop fs strategy rest
      if fsExists fs entry.name then
        match strategy with
        | .SkipExisting => { rep with skipped := entry.name :: rep.skipped }
        | .Overwrite => { rep with overwritten := entry.name :: rep.overwritten }
        | .Rename =>
            { rep with imported :=
                (entry.name ++ " -> " ++ entry.name ++ "_\x7btimestamp\x7d") :: rep.imported }
      else { rep with imported := entry.name :: rep.imported }

/-- `BackupManager::import`.  The initial `fs::read(backup_path)` is
modelled as already performed, yielding the envelope (its only failure
mode, an io error on the source file, returns before anything else
happens and is not claim-relevant). -/
def importBackup (fs : FsState) (encrypted : Envelope Json) (passphrase : String)
    (options : ImportOptions) (now : String) : FsState × Except SkmError ImportReport :=
  match decrypt_with_passphrase encrypted passphrase with
  | .error e => (fs, .error e)
  | .ok decrypted =>
      match decodeBackupData decrypted with
      | .error e => (fs, .error (SkmError.ImportExport ("Invalid backup format: " ++ e)))
      | .ok backup =>
          if options.dry_run then
            (fs, .ok (dryRunLoop fs options.merge_strategy backup.keys))
          else
            let r := importLoop now options.merge_strategy fs backup.keys
            (r.1, .ok r.2)

/-- `BackupManager::read_file_if_exists`: reading a present file is
modelled as succeeding, so the `Result` layer collapses to the option. -/
def read_file_if_exists (fs : FsState) (path : String) : Option Bytes :=
  lookupA fs.files path

/-- The entry-building loop of `BackupManager::export` (lines 99-120 of
backup.rs): filter by `selected_keys`, omit the private half under
`include_public_only`, read whichever halves exist. -/
def buildEntries (srcFs : FsState) (options : ExportOptions) :
    List SshKey → List BackupEntry
  | [] => []
  | k :: rest =>
      let dropIt := match options.selected_keys with
        | some sel => !sel.contains k.name
        | none => false
      if dropIt then buildEntries srcFs options rest
      else
        { name := k.name,
          key_type := keyTypeToString k.key_type,
          comment := k.comment,
          private_key :=
            if options.include_public_only then none
            else read_file_if_exists srcFs k.path,
          public_key := read_file_if_exists srcFs k.public_path } ::
        buildEntries srcFs options rest

/-- The environment inputs of export metadata (current time, hostname,
username). -/
structure ExportEnv where
  now : String
  hostname : String
  username : String
deriving DecidableEq

/-- The `BackupData` value assembled by `BackupManager::export`
(lines 122-132 of backup.rs). -/
def exportBackupData (srcFs : FsState) (keys : List SshKey)
    (options : ExportOptions) (env : ExportEnv) : BackupData :=
  { metadata :=
      { version := BACKUP_VERSION,
        created_at := env.now,
        hostname := env.hostname,
        username := env.username,
        key_count := (buildEntries srcFs options keys).length,
        description := options.description },
    keys := buildEntries srcFs options keys }

/-- `BackupManager::export` up to and including encryption (lines 90-139
of backup.rs); the destination-file write step is `export_write_step`
below.  `nonce` stands for the fresh randomness of the encryption call. -/
def exportBackup (srcFs : FsState) (keys : List SshKey) (passphrase : String)
    (options : ExportOptions) (env : ExportEnv) (nonce : Nat) : Envelope Json :=
  encrypt_with_passphrase
    (encodeBackupData (exportBackupData srcFs keys options env)) passphrase nonce

/-- The world of the export destination file: whether the parent directory
of `output_path` exists, the destination file content, and an optional
write fault firing after the given number of bytes. -/
structure DestWorld where
  parentExists : Bool
  content : Option Bytes
  failAfter : Option Nat
deriving DecidableEq

/-- The destination write step of `BackupManager::export` (lines 141-144
of backup.rs): `fs::File::create(output_path)` followed by
`file.write_all(&encrypted)`.  `File::create` fails when the parent
directory is missing (it is never created); otherwise it truncates, and a
faulted `write_all` leaves the prefix written so far. -/
def export_write_step (w : DestWorld) (encrypted : Bytes) : DestWorld × Option SkmError :=
  if w.parentExists = false then
    (w, some (SkmError.Io "No such file or directory (os error 2)"))
  else
    match w.failAfter with
    | some n =>
        if n < encrypted.length then
          ({ w with content := some (encrypted.take n) },
           some (SkmError.Io "failed to write whole buffer"))
        else ({ w with content := some encrypted }, none)
    | none => ({ w with content := some encrypted }, none)

/-! ## Derived descriptions used by the theorems -/

/-- The store state after writing the present halves of an entry under a
given name, as spec section 4.4 step 6 describes it: each present byte
buffer goes to its path, the private half with mode 0o600, the public
half with mode 0o644, absent halves untouched. -/
def specWrittenState (fs : FsState) (name : String) (entry : BackupEntry) : FsState :=
  let fs1 := match entry.private_key with
    | none => fs
    | some d => { fs with files := insertA fs.files name d,
                          perms := insertA fs.perms name 0o600 }
  match entry.public_key with
  | none => fs1
  | some d => { fs1 with files := insertA fs1.files (withExtensionPub name) d,
                         perms := insertA fs1.perms (withExtensionPub name) 0o644 }

/-- The per-entry outcome sequence of a non-dry-run import, in container
order: the loop of lines 192-199 with the report-bucketing stripped off. -/
def importTrace (now : String) (strategy : MergeStrategy) :
    FsState → List BackupEntry → List (BackupEntry × Except SkmError ImportResult)
  | _, [] => []
  | fs, entry :: rest =>
      let step := importEntry fs now entry strategy
      (entry, step.2) :: importTrace now strategy step.1 rest

/-- Bucketing an outcome sequence into a report: each entry contributes
exactly one element to exactly one list, in sequence order. -/
def traceReport (tr : List (BackupEntry × Except SkmError ImportResult)) : ImportReport :=
  { imported := tr.filterMap (fun pr =>
      match pr.2 with
      | .ok (.Imported n) => some n
      | _ => none),
    skipped := tr.filterMap (fun pr =>
      match pr.2 with
      | .ok (.Skipped n) => some n
      | _ => none),
    overwritten := tr.filterMap (fun pr =>
      match pr.2 with
      | .ok (.Overwritten n) => some n
      | _ => none),
    errors := tr.filterMap (fun pr =>
      match pr.2 with
      | .error e => some (pr.1.name, skmErrorToString e)
      | _ => none) }

/-- The two store paths an entry name touches and is checked against. -/
def entryPaths (n : String) : List String := [n, withExtensionPub n]

/-- The four store paths an entry name can touch across all strategies,
including the rename-derived ones for timestamp `now`. -/
def entryPathsR (now : String) (n : String) : List String :=
  [n, withExtensionPub n, n ++ "_" ++ now, withExtensionPub (n ++ "_" ++ now)]

/-! ## Basic lemmas -/

theorem lookupA_insertA_self {α : Type} (l : List (String × α)) (k : String) (v : α) :
    lookupA (insertA l k v) k = some v := by
  induction l with
  | nil => simp [insertA, lookupA]
  | cons hd tl ih =>
      obtain ⟨k0, v0⟩ := hd
      by_cases h : k0 = k <;> simp [insertA, lookupA, h, ih]

theorem lookupA_insertA_ne {α : Type} (l : List (String × α)) (k q : String) (v : α)
    (h : q ≠ k) : lookupA (insertA l k v) q = lookupA l q := by
  induction l with
  | nil => simp [insertA, lookupA, Ne.symm h]
  | cons hd tl ih =>
      obtain ⟨k0, v0⟩ := hd
      by_cases h0 : k0 = k
      · subst h0
        simp [insertA, lookupA, Ne.symm h]
      · simp [insertA, lookupA, h0, ih]

theorem specWrittenState_ioFail (fs : FsState) (n : String) (e : BackupEntry) :
    (specWrittenState fs n e).ioFail = fs.ioFail := by
  unfold specWrittenState
  cases e.private_key <;> cases e.public_key <;> rfl

theorem specWrittenState_lookup_other (fs : FsState) (n : String) (e : BackupEntry)
    (p : String) (hp1 : p ≠ n) (hp2 : p ≠ withExtensionPub n) :
    lookupA (specWrittenState fs n e).files p = lookupA fs.files p := by
  unfold specWrittenState
  cases e.private_key <;> cases e.public_key <;>
    simp [lookupA_insertA_ne _ _ _ _ hp1, lookupA_insertA_ne _ _ _ _ hp2]

/-- `decrypt` inverts `encrypt` under the same passphrase. -/
theorem decrypt_encrypt {α : Type} (data : α) (passphrase : String) (nonce : Nat) :
    decrypt_with_passphrase (encrypt_with_passphrase data passphrase nonce) passphrase
      = .ok data := by
  simp [decrypt_with_passphrase, encrypt_with_passphrase]

/-! ## Codec roundtrip -/

theorem exceptBindOk {ε α β : Type} (a : α) (f : α → Except ε β) :
    (Except.ok a >>= f) = f a := rfl

theorem exceptMapOk {ε α β : Type} (a : α) (f : α → β) :
    (f <$> (Except.ok a : Except ε α)) = Except.ok (f a) := rfl

theorem exceptBindErr {ε α β : Type} (e : ε) (f : α → Except ε β) :
    ((Except.error e : Except ε α) >>= f) = Except.error e := rfl

theorem asByte_encode (b : Byte) : asByte (Json.num (Int.ofNat b.val)) = .ok b := by
  simp only [asByte, dif_pos b.isLt]

theorem asBytesList_encode (bs : Bytes) :
    asBytesList (bs.map (fun b => Json.num (Int.ofNat b.val))) = .ok bs := by
  induction bs with
  | nil => rfl
  | cons b rest ih =>
      simp only [List.map_cons, asBytesList, asByte_encode, exceptBindOk, ih, exceptMapOk]
      rfl

theorem asOptBytes_encode (ob : Option Bytes) :
    asOptBytes (some (encodeOptBytes ob)) = .ok ob := by
  cases ob with
  | none => rfl
  | some bs =>
      simp only [asOptBytes, encodeOptBytes, asBytesList_encode bs, exceptBindOk, exceptMapOk]
      rfl

theorem asOptStr_encode (d : Option String) : asOptStr (some (encodeOptStr d)) = .ok d := by
  cases d <;> rfl

theorem asU32_encode (v : Nat) (hv : v < 4294967296) :
    asU32 (Json.num (Int.ofNat v)) = .ok v := by
  simp only [asU32, if_pos hv]

theorem asUsize_encode (v : Nat) : asUsize (Json.num (Int.ofNat v)) = .ok v := rfl

theorem decodeMetadata_encode (m : BackupMetadata) (hv : m.version < 4294967296) :
    decodeMetadata (encodeMetadata m) = .ok m := by
  simp only [decodeMetadata, encodeMetadata, reqField, lookupA]
  simp only [String.reduceEq, if_true, if_false, ite_true, ite_false, reduceIte]
  simp only [exceptBindOk]
  rw [asU32_encode _ hv]
  simp only [exceptBindOk, asString, asUsize_encode, asOptStr_encode]
  rfl

theorem decodeEntry_encode (e : BackupEntry) : decodeEntry (encodeEntry e) = .ok e := by
  simp only [decodeEntry, encodeEntry, reqField, lookupA]
  simp only [String.reduceEq, if_true, if_false, ite_true, ite_false, reduceIte]
  simp only [exceptBindOk, asString, asOptStr_encode, asOptBytes_encode]
  rfl

theorem decodeEntries_encode (es : List BackupEntry) :
    decodeEntries (es.map encodeEntry) = .ok es := by
  induction es with
  | nil => rfl
  | cons e rest ih =>
      simp [decodeEntries, decodeEntry_encode, ih, exceptBindOk, exceptMapOk]

theorem decode_encode (b : BackupData) (hv : b.metadata.version < 4294967296) :
    decodeBackupData (encodeBackupData b) = .ok b := by
  simp only [decodeBackupData, encodeBackupData, reqField, lookupA]
  simp only [String.reduceEq, if_true, if_false, ite_true, ite_false, reduceIte]
  simp only [exceptBindOk]
  rw [decodeMetadata_encode _ hv]
  simp only [exceptBindOk, decodeEntries_encode, exceptMapOk]
  rfl

/-! ## Write-step lemmas -/

theorem fsExists_false_lookup (fs : FsState) (p : String) (h : fsExists fs p = false) :
    lookupA fs.files p = none := by
  cases hl : lookupA fs.files p with
  | none => rfl
  | some v => simp [fsExists, hl] at h

theorem write_key_files_clean (fs : FsState) (n : String) (e : BackupEntry)
    (h1 : lookupA fs.ioFail n = none)
    (h2 : lookupA fs.ioFail (withExtensionPub n) = none) :
    write_key_files fs n e = (specWrittenState fs n e, none) := by
  unfold write_key_files writeHalf specWrittenState fsWrite fsSetPerm
  cases hp : e.private_key with
  | none =>
      cases hq : e.public_key with
      | none => simp
      | some d => simp [h2]
  | some d =>
      cases hq : e.public_key with
      | none => simp [h1]
      | some d2 => simp [h1, h2]

theorem specWrittenState_lookup_priv (fs : FsState) (n : String) (e : BackupEntry)
    (hne : n ≠ withExtensionPub n) :
    lookupA (specWrittenState fs n e).files n =
      match e.private_key with
      | some d => some d
      | none => lookupA fs.files n := by
  unfold specWrittenState
  cases e.private_key <;> cases e.public_key <;>
    simp [lookupA_insertA_self, lookupA_insertA_ne _ _ _ _ hne]

theorem specWrittenState_lookup_pub (fs : FsState) (n : String) (e : BackupEntry)
    (hne : withExtensionPub n ≠ n) :
    lookupA (specWrittenState fs n e).files (withExtensionPub n) =
      match e.public_key with
      | some d => some d
      | none => lookupA fs.files (withExtensionPub n) := by
  unfold specWrittenState
  cases e.private_key <;> cases e.public_key <;>
    simp [lookupA_insertA_self, lookupA_insertA_ne _ _ _ _ hne]

/-! ## importEntry case analysis -/

theorem importEntry_fresh (fs : FsState) (now : String) (e : BackupEntry)
    (strat : MergeStrategy)
    (hex : (fsExists fs e.name || fsExists fs (withExtensionPub e.name)) = false)
    (h1 : lookupA fs.ioFail e.name = none)
    (h2 : lookupA fs.ioFail (withExtensionPub e.name) = none) :
    importEntry fs now e strat = (specWrittenState fs e.name e, .ok (.Imported e.name)) := by
  unfold importEntry
  rw [write_key_files_clean fs e.name e h1 h2]
  simp [hex]

theorem importEntry_existing_skip (fs : FsState) (now : String) (e : BackupEntry)
    (hex : (fsExists fs e.name || fsExists fs (withExtensionPub e.name)) = true) :
    importEntry fs now e .SkipExisting = (fs, .ok (.Skipped e.name)) := by
  unfold importEntry
  simp [hex]

theorem importEntry_existing_overwrite (fs : FsState) (now : String) (e : BackupEntry)
    (hex : (fsExists fs e.name || fsExists fs (withExtensionPub e.name)) = true)
    (h1 : lookupA fs.ioFail e.name = none)
    (h2 : lookupA fs.ioFail (withExtensionPub e.name) = none) :
    importEntry fs now e .Overwrite
      = (specWrittenState fs e.name e, .ok (.Overwritten e.name)) := by
  unfold importEntry
  rw [write_key_files_clean fs e.name e h1 h2]
  simp [hex]

theorem importEntry_existing_rename (fs : FsState) (now : String) (e : BackupEntry)
    (hex : (fsExists fs e.name || fsExists fs (withExtensionPub e.name)) = true)
    (h1 : lookupA fs.ioFail (e.name ++ "_" ++ now) = none)
    (h2 : lookupA fs.ioFail (withExtensionPub (e.name ++ "_" ++ now)) = none) :
    importEntry fs now e .Rename
      = (specWrittenState fs (e.name ++ "_" ++ now) e,
         .ok (.Imported (e.name ++ "_" ++ now))) := by
  unfold importEntry
  simp only [hex, ite_true]
  rw [write_key_files_clean fs (e.name ++ "_" ++ now) e h1 h2]

/-- Importing entries whose names and derived public names are fresh in the
store and pairwise non-colliding: every entry is imported under its own
name, nothing is skipped or overwritten, no error occurs, and the final
store holds exactly the halves of the entries on top of the original files. -/
theorem importLoop_fresh (now : String) (strat : MergeStrategy) :
    ∀ (entries : List BackupEntry) (fs : FsState),
      fs.ioFail = [] →
      (∀ e ∈ entries, fsExists fs e.name = false ∧
          fsExists fs (withExtensionPub e.name) = false) →
      (entries.flatMap (fun e => entryPaths e.name)).Nodup →
      (importLoop now strat fs entries).2 =
          { imported := entries.map (fun e => e.name), skipped := [],
            overwritten := [], errors := [] } ∧
      (importLoop now strat fs entries).1.ioFail = [] ∧
      (∀ p, p ∉ entries.flatMap (fun e => entryPaths e.name) →
          lookupA (importLoop now strat fs entries).1.files p = lookupA fs.files p) ∧
      (∀ e ∈ entries,
          lookupA (importLoop now strat fs entries).1.files e.name = e.private_key ∧
          lookupA (importLoop now strat fs entries).1.files (withExtensionPub e.name)
            = e.public_key) := by
  intro entries
  induction entries with
  | nil =>
      intro fs hio hfresh hnd
      exact ⟨rfl, hio, fun p _ => rfl, fun e he => absurd he (List.not_mem_nil e)⟩
  | cons e rest ih =>
      intro fs hio hfresh hnd
      obtain ⟨hf1, hf2⟩ := hfresh e (List.mem_cons_self _ _)
      have hex : (fsExists fs e.name || fsExists fs (withExtensionPub e.name)) = false := by
        simp [hf1, hf2]
      have hlio : ∀ p, lookupA fs.ioFail p = none := by
        intro p
        rw [hio]
        rfl
      have hstep := importEntry_fresh fs now e strat hex (hlio _) (hlio _)
      rw [List.flatMap_cons, List.nodup_append] at hnd
      obtain ⟨hnd1, hnd2, hdisj⟩ := hnd
      have hne_self : e.name ≠ withExtensionPub e.name := by
        simpa [entryPaths] using hnd1
      have hnotin_name : e.name ∉ rest.flatMap (fun x => entryPaths x.name) :=
        fun hm => hdisj (by simp [entryPaths]) hm
      have hnotin_pub :
          withExtensionPub e.name ∉ rest.flatMap (fun x => entryPaths x.name) :=
        fun hm => hdisj (by simp [entryPaths]) hm
      have hio1 : (specWrittenState fs e.name e).ioFail = [] := by
        rw [specWrittenState_ioFail, hio]
      have hfresh1 : ∀ x ∈ rest, fsExists (specWrittenState fs e.name e) x.name = false ∧
          fsExists (specWrittenState fs e.name e) (withExtensionPub x.name) = false := by
        intro x hx
        have hm1 : x.name ∈ rest.flatMap (fun y => entryPaths y.name) :=
          List.mem_flatMap.mpr ⟨x, hx, by simp [entryPaths]⟩
        have hm2 : withExtensionPub x.name ∈ rest.flatMap (fun y => entryPaths y.name) :=
          List.mem_flatMap.mpr ⟨x, hx, by simp [entryPaths]⟩
        have hne1 : x.name ≠ e.name := by
          intro h
          exact hdisj (by simp [entryPaths, h]) hm1
        have hne2 : x.name ≠ withExtensionPub e.name := by
          intro h
          exact hdisj (by simp [entryPaths, h]) hm1
        have hne3 : withExtensionPub x.name ≠ e.name := by
          intro h
          exact hdisj (by simp [entryPaths, h]) hm2
        have hne4 : withExtensionPub x.name ≠ withExtensionPub e.name := by
          intro h
          exact hdisj (by simp [entryPaths, h]) hm2
        obtain ⟨hh1, hh2⟩ := hfresh x (List.mem_cons_of_mem _ hx)
        constructor
        · unfold fsExists
          rw [specWrittenState_lookup_other fs e.name e x.name hne1 hne2]
          exact hh1
        · unfold fsExists
          rw [specWrittenState_lookup_other fs e.name e _ hne3 hne4]
          exact hh2
      obtain ⟨ihrep, ihio, ihframe, ihlook⟩ := ih (specWrittenState fs e.name e) hio1 hfresh1 hnd2
      refine ⟨?_, ?_, ?_, ?_⟩
      · simp only [importLoop, hstep]
        rw [ihrep]
        simp [pushOutcome]
      · simp only [importLoop, hstep]
        exact ihio
      · intro p hp
        rw [List.flatMap_cons] at hp
        rw [List.mem_append] at hp
        push_neg at hp
        obtain ⟨hp1, hp2⟩ := hp
        have hpn : p ≠ e.name := by
          intro h
          exact hp1 (by simp [entryPaths, h])
        have hpp : p ≠ withExtensionPub e.name := by
          intro h
          exact hp1 (by simp [entryPaths, h])
        simp only [importLoop, hstep]
        rw [ihframe p hp2]
        exact specWrittenState_lookup_other fs e.name e p hpn hpp
      · intro x hx
        rcases List.mem_cons.mp hx with hx1 | hx2
        · subst hx1
          constructor
          · simp only [importLoop, hstep]
            rw [ihframe x.name hnotin_name]
            rw [specWrittenState_lookup_priv fs x.name x hne_self]
            cases hpk : x.private_key with
            | some d => rfl
            | none => exact fsExists_false_lookup fs x.name hf1
          · simp only [importLoop, hstep]
            rw [ihframe _ hnotin_pub]
            rw [specWrittenState_lookup_pub fs x.name x (Ne.symm hne_self)]
            cases hpk : x.public_key with
            | some d => rfl
            | none => exact fsExists_false_lookup fs _ hf2
        · have := ihlook x hx2
          simpa only [importLoop, hstep] using this

/-! ## Export entry construction under default options -/

theorem buildEntries_default (srcFs : FsState) (keys : List SshKey) :
    buildEntries srcFs ExportOptions.default keys
      = keys.map (fun k =>
          { name := k.name, key_type := keyTypeToString k.key_type,
            comment := k.comment,
            private_key := read_file_if_exists srcFs k.path,
            public_key := read_file_if_exists srcFs k.public_path }) := by
  induction keys with
  | nil => rfl
  | cons k rest ih => simpa [buildEntries, ExportOptions.default] using ih

/-- Importing (not dry) an envelope produced by export with the same
passphrase runs the entry loop on the exported entries. -/
theorem importBackup_export_eq (fs0 srcFs : FsState) (keys : List SshKey) (P : String)
    (options : ExportOptions) (env : ExportEnv) (nonce : Nat)
    (iopts : ImportOptions) (now : String) (hdry : iopts.dry_run = false) :
    importBackup fs0 (exportBackup srcFs keys P options env nonce) P iopts now
      = ((importLoop now iopts.merge_strategy fs0 (buildEntries srcFs options keys)).1,
         .ok (importLoop now iopts.merge_strategy fs0 (buildEntries srcFs options keys)).2) := by
  have hv : (exportBackupData srcFs keys options env).metadata.version < 4294967296 := by
    norm_num [exportBackupData, BACKUP_VERSION]
  simp only [importBackup, exportBackup, decrypt_encrypt, decode_encode _ hv, hdry,
    Bool.false_eq_true, if_false, ite_false]
  simp [exportBackupData]

/-! ## Claim C1 -/

/-- C1: importing an envelope encrypted under passphrase p1 using any
other passphrase p2 fails with `SkmError::InvalidPassphrase`, never
returns a report, and performs zero store mutations (the returned state is
the starting state, files and permissions included). -/
theorem import_wrong_passphrase_fails (fs : FsState) (payload : Json) (p1 p2 : String)
    (nonce : Nat) (options : ImportOptions) (now : String) (h : p2 ≠ p1) :
    importBackup fs (encrypt_with_passphrase payload p1 nonce) p2 options now
      = (fs, .error SkmError.InvalidPassphrase) := by
  unfold importBackup decrypt_with_passphrase encrypt_with_passphrase
  simp [Ne.symm h]

theorem import_wrong_passphrase_fails_witness :
    ("wrong" ≠ "correct") ∧
    importBackup emptyFs (encrypt_with_passphrase Json.null "correct" 7) "wrong"
        ImportOptions.default "20240101_000000"
      = (emptyFs, .error SkmError.InvalidPassphrase) :=
  ⟨by decide, import_wrong_passphrase_fails emptyFs Json.null "correct" "wrong" 7
      ImportOptions.default "20240101_000000" (by decide)⟩

/-! ## Claim C3 -/

/-- C3: a dry-run import returns the starting store state unchanged
(file contents, permissions and fault map alike) on every code path,
whatever the container, passphrase, merge strategy and starting state. -/
theorem dry_run_no_store_mutation (fs : FsState) (encrypted : Envelope Json)
    (passphrase : String) (strategy : MergeStrategy) (now : String) :
    (importBackup fs encrypted passphrase
        { merge_strategy := strategy, dry_run := true } now).1 = fs := by
  unfold importBackup
  cases hdec : decrypt_with_passphrase encrypted passphrase with
  | error e => rfl
  | ok d =>
      cases hdc : decodeBackupData d with
      | error e => simp [hdc]
      | ok b => simp [hdc]

/-! ## Claim C2 -/

/-- C2 (amended): export-then-import with the same passphrase into an
empty store imports every record with its bytes intact, provided the
names of the records together with their derived public-key names are pairwise
distinct (no name collides with another name, with any derived `.pub`
name, or with its own derived name). -/
theorem export_import_roundtrip (srcFs : FsState) (keys : List SshKey) (P : String)
    (env : ExportEnv) (nonce : Nat) (now : String)
    (hnd : (keys.flatMap (fun k => entryPaths k.name)).Nodup) :
    ∃ fs1 rep,
      importBackup emptyFs (exportBackup srcFs keys P ExportOptions.default env nonce) P
          ImportOptions.default now = (fs1, .ok rep) ∧
      rep.imported.length = keys.length ∧
      rep.skipped = [] ∧ rep.overwritten = [] ∧ rep.errors = [] ∧
      (∀ k ∈ keys,
        lookupA fs1.files k.name = read_file_if_exists srcFs k.path ∧
        lookupA fs1.files (withExtensionPub k.name)
          = read_file_if_exists srcFs k.public_path) := by
  have hBE := buildEntries_default srcFs keys
  have hnd2 : ((buildEntries srcFs ExportOptions.default keys).flatMap
      (fun e => entryPaths e.name)).Nodup := by
    rw [hBE, List.flatMap_map]
    simpa [Function.comp] using hnd
  have hfresh : ∀ e ∈ buildEntries srcFs ExportOptions.default keys,
      fsExists emptyFs e.name = false ∧
      fsExists emptyFs (withExtensionPub e.name) = false :=
    fun e _ => ⟨rfl, rfl⟩
  obtain ⟨hrep, hio, hframe, hlook⟩ :=
    importLoop_fresh now ImportOptions.default.merge_strategy
      (buildEntries srcFs ExportOptions.default keys) emptyFs rfl hfresh hnd2
  refine ⟨_, _, importBackup_export_eq emptyFs srcFs keys P ExportOptions.default env nonce
      ImportOptions.default now rfl, ?_, ?_, ?_, ?_, ?_⟩
  · rw [hrep, hBE]
    simp
  · rw [hrep]
  · rw [hrep]
  · rw [hrep]
  · intro k hk
    have he : BackupEntry.mk k.name (keyTypeToString k.key_type) k.comment
        (read_file_if_exists srcFs k.path) (read_file_if_exists srcFs k.public_path)
        ∈ buildEntries srcFs ExportOptions.default keys := by
      rw [hBE]
      exact List.mem_map_of_mem _ hk
    simpa using hlook _ he

theorem export_import_roundtrip_witness :
    (([{ name := "id_test", path := "kp", public_path := "kq",
         key_type := KeyType.Ed25519, comment := none }] : List SshKey).flatMap
        (fun k => entryPaths k.name)).Nodup ∧
    (∃ fs1 rep,
      importBackup emptyFs
          (exportBackup
            { files := [("kp", [80]), ("kq", [81])], perms := [], ioFail := [] }
            [{ name := "id_test", path := "kp", public_path := "kq",
               key_type := KeyType.Ed25519, comment := none }]
            "hunter2" ExportOptions.default
            { now := "2024-01-01T00:00:00Z", hostname := "host", username := "user" } 3)
          "hunter2" ImportOptions.default "20240101_000000" = (fs1, .ok rep) ∧
      rep.imported.length =
        ([{ name := "id_test", path := "kp", public_path := "kq",
            key_type := KeyType.Ed25519, comment := none }] : List SshKey).length ∧
      rep.skipped = [] ∧ rep.overwritten = [] ∧ rep.errors = [] ∧
      (∀ k ∈ ([{ name := "id_test", path := "kp", public_path := "kq",
                 key_type := KeyType.Ed25519, comment := none }] : List SshKey),
        lookupA fs1.files k.name
          = read_file_if_exists
              { files := [("kp", [80]), ("kq", [81])], perms := [], ioFail := [] } k.path ∧
        lookupA fs1.files (withExtensionPub k.name)
          = read_file_if_exists
              { files := [("kp", [80]), ("kq", [81])], perms := [], ioFail := [] }
              k.public_path)) :=
  ⟨by decide,
   export_import_roundtrip
     { files := [("kp", [80]), ("kq", [81])], perms := [], ioFail := [] }
     [{ name := "id_test", path := "kp", public_path := "kq",
        key_type := KeyType.Ed25519, comment := none }]
     "hunter2" { now := "2024-01-01T00:00:00Z", hostname := "host", username := "user" }
     3 "20240101_000000" (by decide)⟩

/-- C2 counterexample: two legitimately named records `a.x` and `a.y`
(distinct names) roundtrip into one imported and one skipped entry,
because the public half of `a.x` lands at the derived path `a.pub`, which
the existence check of `a.y` also consults.  The claimed `imported.len()
== R.len()` and empty `skipped` both fail. -/
theorem export_import_roundtrip_cex :
    (importBackup emptyFs
        (exportBackup
          { files := [("pa", [1]), ("pa.pub", [2]), ("pb", [3]), ("pb.pub", [4])],
            perms := [], ioFail := [] }
          [{ name := "a.x", path := "pa", public_path := "pa.pub",
             key_type := KeyType.Rsa, comment := none },
           { name := "a.y", path := "pb", public_path := "pb.pub",
             key_type := KeyType.Rsa, comment := none }]
          "pw" ExportOptions.default
          { now := "2024", hostname := "h", username := "u" } 0)
        "pw" ImportOptions.default "20240101_120000").2
      = Except.ok { imported := ["a.x"], skipped := ["a.y"],
                    overwritten := [], errors := [] } := by
  rfl

/-! ## Claim C5 -/

/-- C5 (amended): the merge decision of `import_entry`.  An entry counts
as existing iff its private or its public path is present; a non-existing
entry is always imported regardless of strategy; an existing entry is
skipped without any write under SkipExisting, written in place under
Overwrite, and written under the derived name `name_timestamp` under
Rename — with no collision check on the derived name (the equations hold
for every store state, whether or not the derived paths are occupied).
The existing files stay untouched under Rename only when the derived
paths avoid the original ones, which fails for dotted names. -/
theorem import_entry_decision (fs : FsState) (now : String) (e : BackupEntry)
    (hio : fs.ioFail = []) :
    ((fsExists fs e.name || fsExists fs (withExtensionPub e.name)) = false →
      ∀ strat, importEntry fs now e strat
        = (specWrittenState fs e.name e, .ok (.Imported e.name))) ∧
    ((fsExists fs e.name || fsExists fs (withExtensionPub e.name)) = true →
      importEntry fs now e .SkipExisting = (fs, .ok (.Skipped e.name)) ∧
      importEntry fs now e .Overwrite
        = (specWrittenState fs e.name e, .ok (.Overwritten e.name)) ∧
      importEntry fs now e .Rename
        = (specWrittenState fs (e.name ++ "_" ++ now) e,
           .ok (.Imported (e.name ++ "_" ++ now))) ∧
      (e.name ++ "_" ++ now ≠ e.name →
       withExtensionPub (e.name ++ "_" ++ now) ≠ e.name →
       e.name ++ "_" ++ now ≠ withExtensionPub e.name →
       withExtensionPub (e.name ++ "_" ++ now) ≠ withExtensionPub e.name →
        lookupA (importEntry fs now e .Rename).1.files e.name = lookupA fs.files e.name ∧
        lookupA (importEntry fs now e .Rename).1.files (withExtensionPub e.name)
          = lookupA fs.files (withExtensionPub e.name))) := by
  have hlio : ∀ q, lookupA fs.ioFail q = none := by
    intro q
    rw [hio]
    rfl
  refine ⟨?_, ?_⟩
  · intro hex strat
    exact importEntry_fresh fs now e strat hex (hlio _) (hlio _)
  · intro hex
    have hren := importEntry_existing_rename fs now e hex (hlio _) (hlio _)
    refine ⟨importEntry_existing_skip fs now e hex,
            importEntry_existing_overwrite fs now e hex (hlio _) (hlio _),
            hren, ?_⟩
    intro h1 h2 h3 h4
    rw [hren]
    exact ⟨specWrittenState_lookup_other fs _ e e.name (Ne.symm h1) (Ne.symm h2),
           specWrittenState_lookup_other fs _ e _ (Ne.symm h3) (Ne.symm h4)⟩

/-- Sample store for the C5 witness. -/
def fsK : FsState :=
  { files := [("k", [1]), ("other", [2])], perms := [], ioFail := [] }

/-- Sample entry for the C5 witness. -/
def entryK : BackupEntry :=
  { name := "k", key_type := "RSA", comment := none,
    private_key := some [9], public_key := some [8] }

theorem import_entry_decision_witness :
    (fsK.ioFail = []) ∧
    (((fsExists fsK entryK.name || fsExists fsK (withExtensionPub entryK.name)) = false →
      ∀ strat, importEntry fsK "20240101_000000" entryK strat
        = (specWrittenState fsK entryK.name entryK, .ok (.Imported entryK.name))) ∧
     ((fsExists fsK entryK.name || fsExists fsK (withExtensionPub entryK.name)) = true →
      importEntry fsK "20240101_000000" entryK .SkipExisting
        = (fsK, .ok (.Skipped entryK.name)) ∧
      importEntry fsK "20240101_000000" entryK .Overwrite
        = (specWrittenState fsK entryK.name entryK, .ok (.Overwritten entryK.name)) ∧
      importEntry fsK "20240101_000000" entryK .Rename
        = (specWrittenState fsK (entryK.name ++ "_" ++ "20240101_000000") entryK,
           .ok (.Imported (entryK.name ++ "_" ++ "20240101_000000"))) ∧
      (entryK.name ++ "_" ++ "20240101_000000" ≠ entryK.name →
       withExtensionPub (entryK.name ++ "_" ++ "20240101_000000") ≠ entryK.name →
       entryK.name ++ "_" ++ "20240101_000000" ≠ withExtensionPub entryK.name →
       withExtensionPub (entryK.name ++ "_" ++ "20240101_000000")
          ≠ withExtensionPub entryK.name →
        lookupA (importEntry fsK "20240101_000000" entryK .Rename).1.files entryK.name
          = lookupA fsK.files entryK.name ∧
        lookupA (importEntry fsK "20240101_000000" entryK .Rename).1.files
            (withExtensionPub entryK.name)
          = lookupA fsK.files (withExtensionPub entryK.name)))) :=
  ⟨rfl, import_entry_decision fsK "20240101_000000" entryK rfl⟩

/-- Sample store for the C5 counterexample. -/
def fsMy : FsState :=
  { files := [("my.key", [1]), ("my.pub", [2])], perms := [], ioFail := [] }

/-- Sample dotted-name entry for the C5 counterexample. -/
def entryMy : BackupEntry :=
  { name := "my.key", key_type := "RSA", comment := none,
    private_key := some [3], public_key := some [4] }

/-- C5 counterexample: renaming the entry `my.key` writes its public half
to the derived path of the renamed name, which is again `my.pub` — the
existing public file — so Rename does touch the existing files for dotted
names.  The store had `my.pub` holding bytes `[2]`; after the rename it
holds the bytes `[4]` taken from the entry. -/
theorem import_entry_rename_touches_existing_cex :
    (importEntry fsMy "20240101_120000" entryMy .Rename).2
      = .ok (.Imported "my.key_20240101_120000") ∧
    lookupA (importEntry fsMy "20240101_120000" entryMy .Rename).1.files "my.pub"
      = some [4] ∧
    lookupA fsMy.files "my.pub" = some [2] :=
  ⟨rfl, rfl, rfl⟩

/-! ## Claim C10 -/

/-- C10: for a name with a dot after a nonempty stem, the public-key path
replaces the final extension with `pub` instead of appending `.pub`: the
public half is written to the derived path, the appended-form path
`name ++ ".pub"` is left untouched, and the existence check of
`import_entry` consults the derived path (a store holding only that path
makes the entry count as existing and be skipped). -/
theorem pub_path_replaces_extension (fs : FsState) (e : BackupEntry)
    (i : Nat) (hi : lastDotIdx e.name.data = some i) (hpos : 0 < i)
    (hio : fs.ioFail = [])
    (d : Bytes) (hpk : e.public_key = some d)
    (hne0 : withExtensionPub e.name ≠ e.name)
    (hne1 : e.name ++ ".pub" ≠ e.name)
    (hne2 : e.name ++ ".pub" ≠ withExtensionPub e.name) :
    withExtensionPub e.name = String.mk (e.name.data.take i) ++ ".pub" ∧
    lookupA (write_key_files fs e.name e).1.files (withExtensionPub e.name) = some d ∧
    lookupA (write_key_files fs e.name e).1.files (e.name ++ ".pub")
      = lookupA fs.files (e.name ++ ".pub") ∧
    (∀ now, fsExists fs e.name = false → fsExists fs (withExtensionPub e.name) = true →
      importEntry fs now e .SkipExisting = (fs, .ok (.Skipped e.name))) := by
  have hlio : ∀ q, lookupA fs.ioFail q = none := by
    intro q
    rw [hio]
    rfl
  have hw := write_key_files_clean fs e.name e (hlio _) (hlio _)
  refine ⟨?_, ?_, ?_, ?_⟩
  · unfold withExtensionPub
    rw [hi]
    simp [hpos]
  · rw [hw]
    rw [specWrittenState_lookup_pub fs e.name e hne0, hpk]
  · rw [hw]
    exact specWrittenState_lookup_other fs e.name e _ hne1 hne2
  · intro now hA hB
    exact importEntry_existing_skip fs now e (by simp [hA, hB])

/-- Sample dotted-name entry for the C10 witness. -/
def entryDot : BackupEntry :=
  { name := "my.key", key_type := "RSA", comment := none,
    private_key := some [8], public_key := some [9] }

/-- Sample store holding only the derived public path for the C10
witness. -/
def fsDot : FsState :=
  { files := [("my.pub", [5])], perms := [], ioFail := [] }

theorem pub_path_replaces_extension_witness :
    lastDotIdx entryDot.name.data = some 2 ∧ 0 < 2 ∧ fsDot.ioFail = [] ∧
    entryDot.public_key = some [9] ∧
    withExtensionPub entryDot.name ≠ entryDot.name ∧
    entryDot.name ++ ".pub" ≠ entryDot.name ∧
    entryDot.name ++ ".pub" ≠ withExtensionPub entryDot.name ∧
    (withExtensionPub entryDot.name = String.mk (entryDot.name.data.take 2) ++ ".pub" ∧
     lookupA (write_key_files fsDot entryDot.name entryDot).1.files
        (withExtensionPub entryDot.name) = some [9] ∧
     lookupA (write_key_files fsDot entryDot.name entryDot).1.files
        (entryDot.name ++ ".pub")
       = lookupA fsDot.files (entryDot.name ++ ".pub") ∧
     (∀ now, fsExists fsDot entryDot.name = false →
        fsExists fsDot (withExtensionPub entryDot.name) = true →
        importEntry fsDot now entryDot .SkipExisting
          = (fsDot, .ok (.Skipped entryDot.name)))) :=
  ⟨by decide, by decide, rfl, rfl, by decide, by decide, by decide,
   pub_path_replaces_extension fsDot entryDot 2 (by decide) (by decide) rfl [9] rfl
     (by decide) (by decide) (by decide)⟩

/-! ## Report structure machinery (for C7 and C9) -/

/-- Reducing `importBackup` once the passphrase matches and the payload
decodes. -/
theorem importBackup_reduce (fs : FsState) (envl : Envelope Json) (p : String)
    (opts : ImportOptions) (now : String) (backup : BackupData)
    (hp : envl.passphrase = p) (hdec : decodeBackupData envl.payload = .ok backup) :
    importBackup fs envl p opts now =
      if opts.dry_run then (fs, .ok (dryRunLoop fs opts.merge_strategy backup.keys))
      else ((importLoop now opts.merge_strategy fs backup.keys).1,
            .ok (importLoop now opts.merge_strategy fs backup.keys).2) := by
  simp only [importBackup, decrypt_with_passphrase, if_pos hp, hdec]

theorem traceReport_cons (e : BackupEntry) (r : Except SkmError ImportResult)
    (tr : List (BackupEntry × Except SkmError ImportResult)) :
    traceReport ((e, r) :: tr) = pushOutcome e r (traceReport tr) := by
  cases r with
  | error err => simp [traceReport, pushOutcome]
  | ok res => cases res <;> simp [traceReport, pushOutcome]

theorem importLoop_eq_traceReport (now : String) (strat : MergeStrategy) :
    ∀ (entries : List BackupEntry) (fs : FsState),
      (importLoop now strat fs entries).2
        = traceReport (importTrace now strat fs entries) := by
  intro entries
  induction entries with
  | nil => intro fs; rfl
  | cons e rest ih =>
      intro fs
      simp only [importLoop, importTrace, traceReport_cons]
      rw [ih]

theorem importTrace_map_fst (now : String) (strat : MergeStrategy) :
    ∀ (entries : List BackupEntry) (fs : FsState),
      (importTrace now strat fs entries).map Prod.fst = entries := by
  intro entries
  induction entries with
  | nil => intro fs; rfl
  | cons e rest ih => intro fs; simp [importTrace, ih]

/-- Every `import_entry` call yields one of five outcome shapes tied to
the name of the entry. -/
theorem importEntry_cases (fs : FsState) (now : String) (e : BackupEntry)
    (strat : MergeStrategy) :
    (importEntry fs now e strat).2 = .ok (.Imported e.name) ∨
    (importEntry fs now e strat).2 = .ok (.Imported (e.name ++ "_" ++ now)) ∨
    (importEntry fs now e strat).2 = .ok (.Skipped e.name) ∨
    (importEntry fs now e strat).2 = .ok (.Overwritten e.name) ∨
    (∃ err, (importEntry fs now e strat).2 = .error err) := by
  by_cases hex : (fsExists fs e.name || fsExists fs (withExtensionPub e.name)) = true
  · cases strat with
    | SkipExisting => simp [importEntry, hex]
    | Overwrite =>
        rcases hw : write_key_files fs e.name e with ⟨fs1, o⟩
        cases o <;> simp [importEntry, hex, hw]
    | Rename =>
        rcases hw : write_key_files fs (e.name ++ "_" ++ now) e with ⟨fs1, o⟩
        cases o <;> simp [importEntry, hex, hw]
  · have hex2 : (fsExists fs e.name || fsExists fs (withExtensionPub e.name)) = false := by
      simpa using hex
    rcases hw : write_key_files fs e.name e with ⟨fs1, o⟩
    cases o <;> simp [importEntry, hex2, hw]

/-- The bucket outcome of one entry in a report. -/
inductive EntryOutcome where
  | imported : String → EntryOutcome
  | skipped : String → EntryOutcome
  | overwritten : String → EntryOutcome
  | errored : String → String → EntryOutcome
deriving DecidableEq

/-- The report assembled from one outcome per entry, in order. -/
def outcomesReport (outs : List EntryOutcome) : ImportReport :=
  { imported := outs.filterMap (fun o =>
      match o with
      | .imported n => some n
      | _ => none),
    skipped := outs.filterMap (fun o =>
      match o with
      | .skipped n => some n
      | _ => none),
    overwritten := outs.filterMap (fun o =>
      match o with
      | .overwritten n => some n
      | _ => none),
    errors := outs.filterMap (fun o =>
      match o with
      | .errored n m => some (n, m)
      | _ => none) }

/-- The outcomes one entry can contribute: its own name everywhere, or the
rename-derived name under imported (the concrete `name_now` in a real run,
the intended pattern string in a dry run). -/
def outcomeFor (now : String) (e : BackupEntry) : EntryOutcome → Prop
  | .imported n => n = e.name ∨ n = e.name ++ "_" ++ now ∨
      n = e.name ++ " -> " ++ e.name ++ "_\x7btimestamp\x7d"
  | .skipped n => n = e.name
  | .overwritten n => n = e.name
  | .errored n _ => n = e.name

theorem outcomesReport_count (outs : List EntryOutcome) :
    (outcomesReport outs).imported.length + (outcomesReport outs).skipped.length +
      (outcomesReport outs).overwritten.length + (outcomesReport outs).errors.length
      = outs.length := by
  induction outs with
  | nil => rfl
  | cons o rest ih =>
      cases o <;> simp [outcomesReport] at ih ⊢ <;> omega

/-- The non-dry-run loop report is a per-entry bucket assignment in
container order. -/
theorem importLoop_outcomes (now : String) (strat : MergeStrategy) :
    ∀ (entries : List BackupEntry) (fs : FsState),
      ∃ outs : List EntryOutcome,
        List.Forall₂ (outcomeFor now) entries outs ∧
        (importLoop now strat fs entries).2 = outcomesReport outs := by
  intro entries
  induction entries with
  | nil => intro fs; exact ⟨[], List.Forall₂.nil, rfl⟩
  | cons e rest ih =>
      intro fs
      obtain ⟨outs, hf, hrep⟩ := ih (importEntry fs now e strat).1
      rcases importEntry_cases fs now e strat with h | h | h | h | ⟨err, h⟩
      · refine ⟨.imported e.name :: outs,
          List.Forall₂.cons (by simp [outcomeFor]) hf, ?_⟩
        simp only [importLoop]
        rw [h, hrep]
        simp [pushOutcome, outcomesReport]
      · refine ⟨.imported (e.name ++ "_" ++ now) :: outs,
          List.Forall₂.cons (by simp [outcomeFor]) hf, ?_⟩
        simp only [importLoop]
        rw [h, hrep]
        simp [pushOutcome, outcomesReport]
      · refine ⟨.skipped e.name :: outs,
          List.Forall₂.cons (by simp [outcomeFor]) hf, ?_⟩
        simp only [importLoop]
        rw [h, hrep]
        simp [pushOutcome, outcomesReport]
      · refine ⟨.overwritten e.name :: outs,
          List.Forall₂.cons (by simp [outcomeFor]) hf, ?_⟩
        simp only [importLoop]
        rw [h, hrep]
        simp [pushOutcome, outcomesReport]
      · refine ⟨.errored e.name (skmErrorToString err) :: outs,
          List.Forall₂.cons (by simp [outcomeFor]) hf, ?_⟩
        simp only [importLoop]
        rw [h, hrep]
        simp [pushOutcome, outcomesReport]

/-- The dry-run loop report is a per-entry bucket assignment in container
order. -/
theorem dryRunLoop_outcomes (fs : FsState) (strat : MergeStrategy) (now : String) :
    ∀ entries : List BackupEntry,
      ∃ outs : List EntryOutcome,
        List.Forall₂ (outcomeFor now) entries outs ∧
        dryRunLoop fs strat entries = outcomesReport outs := by
  intro entries
  induction entries with
  | nil => exact ⟨[], List.Forall₂.nil, rfl⟩
  | cons e rest ih =>
      obtain ⟨outs, hf, hrep⟩ := ih
      by_cases hx : fsExists fs e.name = true
      · cases strat with
        | SkipExisting =>
            refine ⟨.skipped e.name :: outs,
              List.Forall₂.cons (by simp [outcomeFor]) hf, ?_⟩
            simp [dryRunLoop, hx, hrep, outcomesReport]
        | Overwrite =>
            refine ⟨.overwritten e.name :: outs,
              List.Forall₂.cons (by simp [outcomeFor]) hf, ?_⟩
            simp [dryRunLoop, hx, hrep, outcomesReport]
        | Rename =>
            refine ⟨.imported (e.name ++ " -> " ++ e.name ++ "_\x7btimestamp\x7d") :: outs,
              List.Forall₂.cons (by simp [outcomeFor]) hf, ?_⟩
            simp [dryRunLoop, hx, hrep, outcomesReport]
      · have hx2 : fsExists fs e.name = false := by simpa using hx
        refine ⟨.imported e.name :: outs,
          List.Forall₂.cons (by simp [outcomeFor]) hf, ?_⟩
        simp [dryRunLoop, hx2, hrep, outcomesReport]

/-! ## Claim C7 -/

/-- C7: in a non-dry-run import whose decrypt and decode succeed, the call
always returns the accumulated report successfully; the report is the
bucketing of a per-entry outcome trace that covers every container entry
in order, and a failing entry contributes its name and rendered error
message to `errors` while the remaining entries still appear in the
trace. -/
theorem import_entry_failures_isolated (fs : FsState) (envl : Envelope Json)
    (p now : String) (strat : MergeStrategy) (backup : BackupData)
    (hp : envl.passphrase = p)
    (hdec : decodeBackupData envl.payload = .ok backup) :
    importBackup fs envl p { merge_strategy := strat, dry_run := false } now
      = ((importLoop now strat fs backup.keys).1,
         .ok (traceReport (importTrace now strat fs backup.keys))) ∧
    (importTrace now strat fs backup.keys).map Prod.fst = backup.keys ∧
    (traceReport (importTrace now strat fs backup.keys)).errors
      = (importTrace now strat fs backup.keys).filterMap
          (fun pr =>
            match pr.2 with
            | .error err => some (pr.1.name, skmErrorToString err)
            | _ => none) := by
  refine ⟨?_, importTrace_map_fst now strat backup.keys fs, rfl⟩
  rw [importBackup_reduce fs envl p _ now backup hp hdec]
  simp [importLoop_eq_traceReport]

/-- Faulted store for the C7 witness: writing `k` fails, later entries
still import. -/
def fsFail : FsState :=
  { files := [], perms := [], ioFail := [("k", "disk full")] }

/-- Two-entry container for the C7 witness. -/
def dataC7 : BackupData :=
  { metadata := { version := 1, created_at := "t", hostname := "h",
                  username := "u", key_count := 2, description := none },
    keys := [{ name := "k", key_type := "RSA", comment := none,
               private_key := some [1], public_key := none },
             { name := "m", key_type := "RSA", comment := none,
               private_key := some [2], public_key := none }] }

theorem import_entry_failures_isolated_witness :
    ((encrypt_with_passphrase (encodeBackupData dataC7) "p" 0).passphrase = "p") ∧
    (decodeBackupData (encrypt_with_passphrase (encodeBackupData dataC7) "p" 0).payload
      = .ok dataC7) ∧
    (importBackup fsFail (encrypt_with_passphrase (encodeBackupData dataC7) "p" 0) "p"
        { merge_strategy := .SkipExisting, dry_run := false } "ts"
      = ((importLoop "ts" .SkipExisting fsFail dataC7.keys).1,
         .ok (traceReport (importTrace "ts" .SkipExisting fsFail dataC7.keys))) ∧
     (importTrace "ts" .SkipExisting fsFail dataC7.keys).map Prod.fst = dataC7.keys ∧
     (traceReport (importTrace "ts" .SkipExisting fsFail dataC7.keys)).errors
       = (importTrace "ts" .SkipExisting fsFail dataC7.keys).filterMap
           (fun pr =>
             match pr.2 with
             | .error err => some (pr.1.name, skmErrorToString err)
             | _ => none)) ∧
    traceReport (importTrace "ts" .SkipExisting fsFail dataC7.keys)
      = { imported := ["m"], skipped := [], overwritten := [],
          errors := [("k", "IO error: disk full")] } :=
  ⟨rfl, rfl,
   import_entry_failures_isolated fsFail
     (encrypt_with_passphrase (encodeBackupData dataC7) "p" 0)
     "p" "ts" .SkipExisting dataC7 rfl rfl,
   rfl⟩

/-! ## Claim C9 -/

/-- C9: whenever import returns a report (dry run or not), the report is
the bucketing of exactly one outcome per container entry, in container
order, each outcome carrying the name of its entry (or rename-derived name), so
the four list lengths sum to the number of container entries. -/
theorem import_report_partition (fs fs1 : FsState) (envl : Envelope Json) (p now : String)
    (opts : ImportOptions) (rep : ImportReport) (backup : BackupData)
    (hdec : decodeBackupData envl.payload = .ok backup)
    (him : importBackup fs envl p opts now = (fs1, .ok rep)) :
    ∃ outs : List EntryOutcome,
      List.Forall₂ (outcomeFor now) backup.keys outs ∧
      rep = outcomesReport outs ∧
      rep.imported.length + rep.skipped.length + rep.overwritten.length +
        rep.errors.length = backup.keys.length := by
  by_cases hp : envl.passphrase = p
  · rw [importBackup_reduce fs envl p opts now backup hp hdec] at him
    cases hdry : opts.dry_run with
    | true =>
        rw [hdry] at him
        simp only [if_true, ite_true, Prod.mk.injEq, Except.ok.injEq] at him
        obtain ⟨outs, hf, hq⟩ := dryRunLoop_outcomes fs opts.merge_strategy now backup.keys
        have hrep : rep = outcomesReport outs := by rw [← him.2, hq]
        refine ⟨outs, hf, hrep, ?_⟩
        rw [hrep, outcomesReport_count]
        exact (List.Forall₂.length_eq hf).symm
    | false =>
        rw [hdry] at him
        simp only [Bool.false_eq_true, if_false, ite_false, Prod.mk.injEq,
          Except.ok.injEq] at him
        obtain ⟨outs, hf, hq⟩ := importLoop_outcomes now opts.merge_strategy backup.keys fs
        have hrep : rep = outcomesReport outs := by rw [← him.2, hq]
        refine ⟨outs, hf, hrep, ?_⟩
        rw [hrep, outcomesReport_count]
        exact (List.Forall₂.length_eq hf).symm
  · exfalso
    unfold importBackup decrypt_with_passphrase at him
    rw [if_neg hp] at him
    simp at him

/-- One-entry container for the C9 witness. -/
def dataC9 : BackupData :=
  { metadata := { version := 1, created_at := "t", hostname := "h",
                  username := "u", key_count := 1, description := none },
    keys := [{ name := "k", key_type := "RSA", comment := none,
               private_key := some [1], public_key := none }] }

theorem import_report_partition_witness :
    (decodeBackupData (encrypt_with_passphrase (encodeBackupData dataC9) "p" 0).payload
      = .ok dataC9) ∧
    (importBackup emptyFs (encrypt_with_passphrase (encodeBackupData dataC9) "p" 0) "p"
        { merge_strategy := .SkipExisting, dry_run := false } "ts"
      = ({ files := [("k", [1])], perms := [("k", 384)], ioFail := [] },
         .ok { imported := ["k"], skipped := [], overwritten := [], errors := [] })) ∧
    (∃ outs : List EntryOutcome,
      List.Forall₂ (outcomeFor "ts") dataC9.keys outs ∧
      ({ imported := ["k"], skipped := [], overwritten := [],
         errors := [] } : ImportReport) = outcomesReport outs ∧
      (["k"] : List String).length + ([] : List String).length +
        ([] : List String).length + ([] : List (String × String)).length
        = dataC9.keys.length) :=
  ⟨rfl, rfl,
   import_report_partition emptyFs
     { files := [("k", [1])], perms := [("k", 384)], ioFail := [] }
     (encrypt_with_passphrase (encodeBackupData dataC9) "p" 0) "p" "ts"
     { merge_strategy := .SkipExisting, dry_run := false }
     { imported := ["k"], skipped := [], overwritten := [], errors := [] }
     dataC9 rfl rfl⟩

/-! ## Claim C4 -/

/-- Dry-run and real-run loops bucket every entry alike — skipped,
overwritten and error lists coincide and imported lists correspond
entrywise (equal names, or the dry pattern string against the concrete
renamed name) — provided write faults are absent, no consulted name has
only its public half present in the starting store, and the four candidate
paths of each entry (own, derived public, renamed, renamed-derived public)
avoid the candidate paths of every other entry. -/
theorem dryRun_matches_real_aux (now : String) (strat : MergeStrategy) :
    ∀ (entries : List BackupEntry) (fs0 fs : FsState),
      fs.ioFail = [] →
      (∀ e ∈ entries,
        fsExists fs e.name = fsExists fs0 e.name ∧
        fsExists fs (withExtensionPub e.name)
          = fsExists fs0 (withExtensionPub e.name)) →
      (∀ e ∈ entries,
        fsExists fs0 (withExtensionPub e.name) = true → fsExists fs0 e.name = true) →
      (entries.flatMap (fun e => entryPathsR now e.name)).Nodup →
      List.Forall₂
        (fun d r : String => d = r ∨ ∃ orig,
          d = orig ++ " -> " ++ orig ++ "_\x7btimestamp\x7d" ∧ r = orig ++ "_" ++ now)
        (dryRunLoop fs0 strat entries).imported
        ((importLoop now strat fs entries).2).imported ∧
      (dryRunLoop fs0 strat entries).skipped
        = ((importLoop now strat fs entries).2).skipped ∧
      (dryRunLoop fs0 strat entries).overwritten
        = ((importLoop now strat fs entries).2).overwritten ∧
      (dryRunLoop fs0 strat entries).errors
        = ((importLoop now strat fs entries).2).errors := by
  intro entries
  induction entries with
  | nil =>
      intro fs0 fs _ _ _ _
      exact ⟨List.Forall₂.nil, rfl, rfl, rfl⟩
  | cons e rest ih =>
      intro fs0 fs hio hagree hpub hnd
      have hlio : ∀ q, lookupA fs.ioFail q = none := by
        intro q
        rw [hio]
        rfl
      obtain ⟨ha1, ha2⟩ := hagree e (List.mem_cons_self _ _)
      rw [List.flatMap_cons, List.nodup_append] at hnd
      obtain ⟨hnd1, hnd2, hdisj⟩ := hnd
      have hne_rest : ∀ q ∈ entryPathsR now e.name, ∀ x ∈ rest,
          q ≠ x.name ∧ q ≠ withExtensionPub x.name := by
        intro q hq x hx
        constructor
        · intro h
          exact hdisj hq (List.mem_flatMap.mpr ⟨x, hx, by simp [entryPathsR, h]⟩)
        · intro h
          exact hdisj hq (List.mem_flatMap.mpr ⟨x, hx, by simp [entryPathsR, h]⟩)
      have hpreserve : ∀ n1 : String, n1 ∈ entryPathsR now e.name →
          withExtensionPub n1 ∈ entryPathsR now e.name →
          ∀ x ∈ rest,
            fsExists (specWrittenState fs n1 e) x.name = fsExists fs0 x.name ∧
            fsExists (specWrittenState fs n1 e) (withExtensionPub x.name)
              = fsExists fs0 (withExtensionPub x.name) := by
        intro n1 hn1 hn2 x hx
        obtain ⟨hq1, hq2⟩ := hne_rest n1 hn1 x hx
        obtain ⟨hr1, hr2⟩ := hne_rest (withExtensionPub n1) hn2 x hx
        obtain ⟨hb1, hb2⟩ := hagree x (List.mem_cons_of_mem _ hx)
        constructor
        · unfold fsExists
          rw [specWrittenState_lookup_other fs n1 e x.name (Ne.symm hq1) (Ne.symm hr1)]
          exact hb1
        · unfold fsExists
          rw [specWrittenState_lookup_other fs n1 e _ (Ne.symm hq2) (Ne.symm hr2)]
          exact hb2
      have hioW : ∀ n1 : String, (specWrittenState fs n1 e).ioFail = [] := by
        intro n1
        rw [specWrittenState_ioFail, hio]
      have hpubR : ∀ x ∈ rest,
          fsExists fs0 (withExtensionPub x.name) = true → fsExists fs0 x.name = true :=
        fun x hx => hpub x (List.mem_cons_of_mem _ hx)
      have hagreeR : ∀ x ∈ rest,
          fsExists fs x.name = fsExists fs0 x.name ∧
          fsExists fs (withExtensionPub x.name)
            = fsExists fs0 (withExtensionPub x.name) :=
        fun x hx => hagree x (List.mem_cons_of_mem _ hx)
      by_cases hx0 : fsExists fs0 e.name = true
      · have hexf : (fsExists fs e.name || fsExists fs (withExtensionPub e.name)) = true := by
          rw [ha1, hx0]
          simp
        cases strat with
        | SkipExisting =>
            have hstep := importEntry_existing_skip fs now e hexf
            obtain ⟨ihi, ihs, iho, ihe⟩ := ih fs0 fs hio hagreeR hpubR hnd2
            refine ⟨?_, ?_, ?_, ?_⟩
            · simpa [dryRunLoop, hx0, importLoop, hstep, pushOutcome] using ihi
            · simp [dryRunLoop, hx0, importLoop, hstep, pushOutcome, ihs]
            · simpa [dryRunLoop, hx0, importLoop, hstep, pushOutcome] using iho
            · simpa [dryRunLoop, hx0, importLoop, hstep, pushOutcome] using ihe
        | Overwrite =>
            have hstep := importEntry_existing_overwrite fs now e hexf (hlio _) (hlio _)
            obtain ⟨ihi, ihs, iho, ihe⟩ := ih fs0 (specWrittenState fs e.name e) (hioW _)
              (hpreserve e.name (by simp [entryPathsR]) (by simp [entryPathsR]))
              hpubR hnd2
            refine ⟨?_, ?_, ?_, ?_⟩
            · simpa [dryRunLoop, hx0, importLoop, hstep, pushOutcome] using ihi
            · simpa [dryRunLoop, hx0, importLoop, hstep, pushOutcome] using ihs
            · simp [dryRunLoop, hx0, importLoop, hstep, pushOutcome, iho]
            · simpa [dryRunLoop, hx0, importLoop, hstep, pushOutcome] using ihe
        | Rename =>
            have hstep := importEntry_existing_rename fs now e hexf (hlio _) (hlio _)
            obtain ⟨ihi, ihs, iho, ihe⟩ := ih fs0
              (specWrittenState fs (e.name ++ "_" ++ now) e) (hioW _)
              (hpreserve (e.name ++ "_" ++ now) (by simp [entryPathsR])
                (by simp [entryPathsR]))
              hpubR hnd2
            refine ⟨?_, ?_, ?_, ?_⟩
            · simp only [dryRunLoop, hx0, if_true, ite_true, importLoop, hstep,
                pushOutcome]
              exact List.Forall₂.cons (Or.inr ⟨e.name, rfl, rfl⟩) ihi
            · simpa [dryRunLoop, hx0, importLoop, hstep, pushOutcome] using ihs
            · simpa [dryRunLoop, hx0, importLoop, hstep, pushOutcome] using iho
            · simpa [dryRunLoop, hx0, importLoop, hstep, pushOutcome] using ihe
      · have hx0f : fsExists fs0 e.name = false := by simpa using hx0
        have hp0f : fsExists fs0 (withExtensionPub e.name) = false := by
          cases hp : fsExists fs0 (withExtensionPub e.name) with
          | false => rfl
          | true => exact absurd (hpub e (List.mem_cons_self _ _) hp) hx0
        have hexf : (fsExists fs e.name || fsExists fs (withExtensionPub e.name))
            = false := by
          rw [ha1, ha2, hx0f, hp0f]
          rfl
        have hstep := importEntry_fresh fs now e strat hexf (hlio _) (hlio _)
        obtain ⟨ihi, ihs, iho, ihe⟩ := ih fs0 (specWrittenState fs e.name e) (hioW _)
          (hpreserve e.name (by simp [entryPathsR]) (by simp [entryPathsR]))
          hpubR hnd2
        refine ⟨?_, ?_, ?_, ?_⟩
        · simp only [dryRunLoop, hx0f, Bool.false_eq_true, if_false, ite_false,
            importLoop, hstep, pushOutcome]
          exact List.Forall₂.cons (Or.inl rfl) ihi
        · simpa [dryRunLoop, hx0f, importLoop, hstep, pushOutcome] using ihs
        · simpa [dryRunLoop, hx0f, importLoop, hstep, pushOutcome] using iho
        · simpa [dryRunLoop, hx0f, importLoop, hstep, pushOutcome] using ihe

/-- C4 (amended): a dry-run import and a non-dry-run import of the same
container into the same starting state land every entry in the same
bucket — equal skipped/overwritten/error lists and entrywise-matching
imported lists, rename entries differing only in the reported name
(intended pattern vs concrete timestamped name) — provided write faults
are absent, every consulted name with a public file in the starting store
also has its private file (the dry run checks only the private path), and
the candidate paths of the entries are pairwise non-colliding (the dry run
checks the starting state only, while earlier writes of a real run are
visible to later entries). -/
theorem dry_run_report_matches_real (fs : FsState) (envl : Envelope Json)
    (p now : String) (strat : MergeStrategy) (backup : BackupData)
    (hp : envl.passphrase = p)
    (hdec : decodeBackupData envl.payload = .ok backup)
    (hio : fs.ioFail = [])
    (hpub : ∀ e ∈ backup.keys,
        fsExists fs (withExtensionPub e.name) = true → fsExists fs e.name = true)
    (hnd : (backup.keys.flatMap (fun e => entryPathsR now e.name)).Nodup) :
    ∃ dryRep realRep fsR,
      importBackup fs envl p { merge_strategy := strat, dry_run := true } now
        = (fs, .ok dryRep) ∧
      importBackup fs envl p { merge_strategy := strat, dry_run := false } now
        = (fsR, .ok realRep) ∧
      List.Forall₂ (fun d r : String => d = r ∨ ∃ orig,
          d = orig ++ " -> " ++ orig ++ "_\x7btimestamp\x7d" ∧ r = orig ++ "_" ++ now)
        dryRep.imported realRep.imported ∧
      dryRep.skipped = realRep.skipped ∧
      dryRep.overwritten = realRep.overwritten ∧
      dryRep.errors = realRep.errors := by
  obtain ⟨h1, h2, h3, h4⟩ := dryRun_matches_real_aux now strat backup.keys fs fs hio
    (fun e he => ⟨rfl, rfl⟩) hpub hnd
  refine ⟨dryRunLoop fs strat backup.keys,
          (importLoop now strat fs backup.keys).2,
          (importLoop now strat fs backup.keys).1, ?_, ?_, h1, h2, h3, h4⟩
  · rw [importBackup_reduce fs envl p _ now backup hp hdec]
    rfl
  · rw [importBackup_reduce fs envl p _ now backup hp hdec]
    rfl

/-- Starting store for the C4 witness: the record `s` has both halves. -/
def fsC4 : FsState :=
  { files := [("s", [1]), ("s.pub", [2])], perms := [], ioFail := [] }

/-- Two-entry container for the C4 witness: `s` collides, `t` is fresh. -/
def dataC4 : BackupData :=
  { metadata := { version := 1, created_at := "t", hostname := "h",
                  username := "u", key_count := 2, description := none },
    keys := [{ name := "s", key_type := "RSA", comment := none,
               private_key := some [1], public_key := some [2] },
             { name := "t", key_type := "RSA", comment := none,
               private_key := some [3], public_key := none }] }

theorem dry_run_report_matches_real_witness :
    ((encrypt_with_passphrase (encodeBackupData dataC4) "p" 0).passphrase = "p") ∧
    (decodeBackupData (encrypt_with_passphrase (encodeBackupData dataC4) "p" 0).payload
      = .ok dataC4) ∧
    (fsC4.ioFail = []) ∧
    (∀ e ∈ dataC4.keys,
        fsExists fsC4 (withExtensionPub e.name) = true → fsExists fsC4 e.name = true) ∧
    ((dataC4.keys.flatMap (fun e => entryPathsR "20240101_000000" e.name)).Nodup) ∧
    (∃ dryRep realRep fsR,
      importBackup fsC4 (encrypt_with_passphrase (encodeBackupData dataC4) "p" 0) "p"
          { merge_strategy := .Rename, dry_run := true } "20240101_000000"
        = (fsC4, .ok dryRep) ∧
      importBackup fsC4 (encrypt_with_passphrase (encodeBackupData dataC4) "p" 0) "p"
          { merge_strategy := .Rename, dry_run := false } "20240101_000000"
        = (fsR, .ok realRep) ∧
      List.Forall₂ (fun d r : String => d = r ∨ ∃ orig,
          d = orig ++ " -> " ++ orig ++ "_\x7btimestamp\x7d" ∧
          r = orig ++ "_" ++ "20240101_000000")
        dryRep.imported realRep.imported ∧
      dryRep.skipped = realRep.skipped ∧
      dryRep.overwritten = realRep.overwritten ∧
      dryRep.errors = realRep.errors) :=
  ⟨rfl, rfl, rfl, by decide, by decide,
   dry_run_report_matches_real fsC4
     (encrypt_with_passphrase (encodeBackupData dataC4) "p" 0) "p" "20240101_000000"
     .Rename dataC4 rfl rfl rfl (by decide) (by decide)⟩

/-- Store holding only a public half for the C4 counterexample. -/
def fsPubOnly : FsState :=
  { files := [("k.pub", [5])], perms := [], ioFail := [] }

/-- One-entry container for the C4 counterexample. -/
def dataC4x : BackupData :=
  { metadata := { version := 1, created_at := "t", hostname := "h",
                  username := "u", key_count := 1, description := none },
    keys := [{ name := "k", key_type := "RSA", comment := none,
               private_key := some [1], public_key := none }] }

/-- C4 counterexample: with only `k.pub` present, a dry run reports `k`
as imported (it checks only the private path against the starting state)
while a real run reports it as skipped (its existence check also consults
the public path) — the bucket membership differs. -/
theorem dry_run_report_matches_real_cex :
    (importBackup fsPubOnly (encrypt_with_passphrase (encodeBackupData dataC4x) "p" 0)
        "p" { merge_strategy := .SkipExisting, dry_run := true } "ts").2
      = .ok { imported := ["k"], skipped := [], overwritten := [], errors := [] } ∧
    (importBackup fsPubOnly (encrypt_with_passphrase (encodeBackupData dataC4x) "p" 0)
        "p" { merge_strategy := .SkipExisting, dry_run := false } "ts").2
      = .ok { imported := [], skipped := ["k"], overwritten := [], errors := [] } :=
  ⟨rfl, rfl⟩

/-! ## Claim C6 -/

/-- C6 (amended): decoding fails with a schema failure when required
fields are missing (shown for the top-level `metadata` field and the
entry-level `name` field), and import then returns the wrapped error with
the store unchanged; but the schema_version is never validated on import:
any u32 version — newer than the supported 1 included — roundtrips
through the codec and is accepted. -/
theorem decode_schema_failures (fs : FsState) :
    (∀ (envl : Envelope Json) (p : String) (opts : ImportOptions) (now err : String),
        envl.passphrase = p →
        decodeBackupData envl.payload = .error err →
        importBackup fs envl p opts now
          = (fs, .error (SkmError.ImportExport ("Invalid backup format: " ++ err)))) ∧
    (∀ fields : List (String × Json), lookupA fields "metadata" = none →
        decodeBackupData (.obj fields) = .error "missing field `metadata`") ∧
    (∀ efields : List (String × Json), lookupA efields "name" = none →
        decodeEntry (.obj efields) = .error "missing field `name`") ∧
    (∀ b : BackupData, b.metadata.version < 4294967296 →
        decodeBackupData (encodeBackupData b) = .ok b) := by
  refine ⟨?_, ?_, ?_, fun b hv => decode_encode b hv⟩
  · intro envl p opts now err hp herr
    simp only [importBackup, decrypt_with_passphrase, if_pos hp, herr]
  · intro fields hmeta
    simp [decodeBackupData, reqField, hmeta, exceptBindErr]
  · intro efields hname
    simp [decodeEntry, reqField, hname, exceptBindErr]

theorem decode_schema_failures_witness :
    importBackup emptyFs (encrypt_with_passphrase Json.null "p" 0) "p"
        ImportOptions.default "ts"
      = (emptyFs, .error (SkmError.ImportExport
          ("Invalid backup format: " ++ "invalid type: expected a map"))) ∧
    decodeBackupData (Json.obj []) = .error "missing field `metadata`" ∧
    decodeEntry (Json.obj []) = .error "missing field `name`" ∧
    decodeBackupData (encodeBackupData dataC9) = .ok dataC9 :=
  ⟨(decode_schema_failures emptyFs).1 (encrypt_with_passphrase Json.null "p" 0) "p"
      ImportOptions.default "ts" "invalid type: expected a map" rfl rfl,
   (decode_schema_failures emptyFs).2.1 [] rfl,
   (decode_schema_failures emptyFs).2.2.1 [] rfl,
   (decode_schema_failures emptyFs).2.2.2 dataC9 (by norm_num [dataC9])⟩

/-- A container whose metadata carries schema_version 2 — newer than the
supported BACKUP_VERSION 1. -/
def dataV2json : Json :=
  Json.obj [("metadata", Json.obj [("version", Json.num 2), ("created_at", Json.str "t"),
      ("hostname", Json.str "h"), ("username", Json.str "u"),
      ("key_count", Json.num 1)]),
    ("keys", Json.arr [Json.obj [("name", Json.str "k"), ("key_type", Json.str "RSA"),
      ("private_key", Json.arr [Json.num 7])]])]

/-- C6 counterexample: a container with schema_version = 2 (newer than
the supported 1) decodes without any version check, and import proceeds
to write its key — it neither returns an error nor leaves the store
unchanged. -/
theorem decode_version_not_checked_cex :
    (importBackup emptyFs { payload := dataV2json, passphrase := "p", nonce := 0 } "p"
        ImportOptions.default "ts").2
      = .ok { imported := ["k"], skipped := [], overwritten := [], errors := [] } ∧
    lookupA (importBackup emptyFs { payload := dataV2json, passphrase := "p", nonce := 0 }
        "p" ImportOptions.default "ts").1.files "k" = some [7] :=
  ⟨rfl, rfl⟩

/-! ## Claim C8 -/

/-- C8 (amended): the destination write step of export does not create a
missing parent directory — `File::create` fails with an io error and the
world is left unchanged, no file appearing; and the write is not
all-or-nothing — with the parent present, a fault after n bytes leaves
the truncated n-byte prefix behind, while only the fault-free run writes
the full container bytes. -/
theorem export_write_step_spec (w : DestWorld) (data : Bytes) :
    (w.parentExists = false →
      export_write_step w data
        = (w, some (SkmError.Io "No such file or directory (os error 2)"))) ∧
    (w.parentExists = true → w.failAfter = none →
      export_write_step w data = ({ w with content := some data }, none)) ∧
    (∀ n, w.parentExists = true → w.failAfter = some n → n < data.length →
      export_write_step w data
        = ({ w with content := some (data.take n) },
           some (SkmError.Io "failed to write whole buffer"))) ∧
    (∀ n, w.parentExists = true → w.failAfter = some n → ¬ n < data.length →
      export_write_step w data = ({ w with content := some data }, none)) := by
  refine ⟨?_, ?_, ?_, ?_⟩
  · intro hpar
    simp [export_write_step, hpar]
  · intro hpar hfa
    simp [export_write_step, hpar, hfa]
  · intro n hpar hfa hlt
    simp [export_write_step, hpar, hfa, hlt]
  · intro n hpar hfa hlt
    simp [export_write_step, hpar, hfa, hlt]

theorem export_write_step_spec_witness :
    (({ parentExists := false, content := none, failAfter := none } : DestWorld).parentExists
      = false) ∧
    export_write_step { parentExists := false, content := none, failAfter := none } [1, 2, 3]
      = ({ parentExists := false, content := none, failAfter := none },
         some (SkmError.Io "No such file or directory (os error 2)")) ∧
    export_write_step { parentExists := true, content := none, failAfter := some 1 } [1, 2, 3]
      = ({ parentExists := true, content := some [1], failAfter := some 1 },
         some (SkmError.Io "failed to write whole buffer")) ∧
    export_write_step { parentExists := true, content := none, failAfter := none } [1, 2, 3]
      = ({ parentExists := true, content := some [1, 2, 3], failAfter := none }, none) :=
  ⟨rfl,
   (export_write_step_spec { parentExists := false, content := none, failAfter := none }
      [1, 2, 3]).1 rfl,
   (export_write_step_spec { parentExists := true, content := none, failAfter := some 1 }
      [1, 2, 3]).2.2.1 1 rfl rfl (by decide),
   (export_write_step_spec { parentExists := true, content := none, failAfter := none }
      [1, 2, 3]).2.1 rfl rfl⟩

/-- C8 counterexample: with the parent directory missing, the export
write step fails and creates neither the directory nor the file (the
claim says missing parent directories are created); and with the parent
present but the write faulting after one byte, a partially-written
one-byte destination file is left behind (the claim says writing is
all-or-nothing). -/
theorem export_write_step_cex :
    export_write_step { parentExists := false, content := none, failAfter := none } [1, 2, 3]
      = ({ parentExists := false, content := none, failAfter := none },
         some (SkmError.Io "No such file or directory (os error 2)")) ∧
    export_write_step { parentExists := true, content := none, failAfter := some 1 } [1, 2, 3]
      = ({ parentExists := true, content := some [1], failAfter := some 1 },
         some (SkmError.Io "failed to write whole buffer")) :=
  ⟨rfl, rfl⟩
